import Mathlib

/-!
Verification of the PushDrop token layer of the crowdfunding workshop demo.

Conventions of the embedding:
* JavaScript byte arrays and Node buffers are `List Nat` (each entry a byte value).
* Strings that only flow through UTF-8 encode or decode are kept as their
  UTF-8 byte lists; strings manipulated textually (ASM parsing, key ids)
  are Lean `String`.
* A script is its chunk list; a chunk is an opcode with an optional data push,
  mirroring the loosely typed chunk records of the source.
* Fallible JavaScript paths (a thrown exception caught by a handler) are
  `Option` or `Except` values.
-/

namespace Crowdfund

/-! ## Opcode constants (numeric values from the BSV opcode table) -/

def OP_FALSE : Nat := 0
def OP_RETURN : Nat := 106
def opDROP : Nat := 117
def opCHECKSIG : Nat := 172
def OP_DUP : Nat := 118
def OP_HASH160 : Nat := 169
def OP_EQUALVERIFY : Nat := 136

/-! ## Byte-level codecs, from src/src/pushdrop-token.ts -/

/-- Little-endian byte expansion of a natural number to a fixed width. -/
def natToLEBytes : Nat → Nat → List Nat
  | 0, _ => []
  | w + 1, v => v % 256 :: natToLEBytes w (v / 256)

/-- Value of a little-endian byte list. -/
def leBytesToNat : List Nat → Nat
  | [] => 0
  | b :: rest => b + 256 * leBytesToNat rest

/-- Embeds `bigIntToBuffer` (pushdrop-token.ts lines 243-247): an 8-byte
little-endian two-complement encoding via `writeBigInt64LE`. The Node call
throws outside the signed 64-bit range; the embedding is total and the
theorems restrict to the in-range values. -/
def bigIntToBuffer (v : Int) : List Nat :=
  natToLEBytes 8 (v % (2 ^ 64 : Int)).toNat

/-- Embeds `bufferToBigInt` (pushdrop-token.ts lines 252-258): the input is
copied into a zeroed 8-byte buffer (`Buffer.copy` silently truncates a longer
source) and read back as a signed 64-bit little-endian integer. -/
def bufferToBigInt (buffer : List Nat) : Int :=
  if buffer.isEmpty then 0
  else
    let padded := buffer.take 8 ++ List.replicate (8 - buffer.length) 0
    let u := leBytesToNat padded
    if u < 2 ^ 63 then (u : Int) else (u : Int) - 2 ^ 64

/-! ## Script chunks -/

/-- A script chunk: an opcode, optionally carrying pushed data. -/
structure Chunk where
  op : Nat
  data : Option (List Nat)
deriving DecidableEq

/-- Push opcode chosen by `Script.writeBin` for a data push of a given length. -/
def pushOpFor (n : Nat) : Nat :=
  if n ≤ 75 then n else if n ≤ 255 then 76 else if n ≤ 65535 then 77 else 78

/-- Data-push chunk as produced by `Script.writeBin`. -/
def pushChunk (d : List Nat) : Chunk := ⟨pushOpFor d.length, some d⟩

/-- UTF-8 bytes of the protocol id string used by the source, CROWDFUND. -/
def crowdfundId : List Nat := [67, 82, 79, 87, 68, 70, 85, 78, 68]

/-! ## PushDrop token payload and builder, from src/src/pushdrop-token.ts -/

/-- Token payload (`PushDropTokenData`). The public key is represented by its
compressed 33-byte encoding; `campaignId` by its UTF-8 bytes; `metadata` by
the bytes of its JSON serialisation (serialising a string record and parsing
it back is the identity, so the record itself is not modelled). The interface
declares the timestamp as a number, but the parser can in fact deliver the
JavaScript value undefined in that field (see `parsePushDropToken`), so the
field is embedded as an optional number: `none` is undefined. -/
structure PushDropTokenData where
  protocolId : List Nat
  investmentAmount : Int
  investorPublicKey : List Nat
  timestamp : Option Nat
  campaignId : Option (List Nat)
  metadata : Option (List Nat)
deriving DecidableEq

/-- Embeds `createPushDropTokenScript` (pushdrop-token.ts lines 42-72).
The campaign id chunk is written only when the string is truthy, so an empty
or absent campaign id is skipped; the metadata chunk is written whenever the
record is present (a JavaScript object is always truthy). The timestamp is
written through `new Uint32Array([data.timestamp])`, whose own fresh 4-byte
ArrayBuffer is wrapped by `Buffer.from`, so the write side does produce the
timestamp as 4 little-endian bytes, with ToUint32 truncating to 32 bits and
coercing an undefined timestamp to 0. -/
def createPushDropTokenScript (data : PushDropTokenData) : List Chunk :=
  [Chunk.mk OP_FALSE none, Chunk.mk OP_RETURN none,
   pushChunk data.protocolId,
   pushChunk (bigIntToBuffer data.investmentAmount),
   pushChunk data.investorPublicKey,
   pushChunk (natToLEBytes 4 (data.timestamp.getD 0 % 2 ^ 32))]
  ++ (match data.campaignId with
      | some c => if c.isEmpty then [] else [pushChunk c]
      | none => [])
  ++ (match data.metadata with
      | some m => [pushChunk m]
      | none => [])

/-! ## PushDrop token parser, from src/src/pushdrop-token.ts -/

/-- Opcode of the chunk at index `i`, when the index is in range. -/
def chunkOp (cs : List Chunk) (i : Nat) : Option Nat := (cs.get? i).map Chunk.op

/-- Pushed data of the chunk at index `i` (`chunks[i]?.data`). -/
def chunkData (cs : List Chunk) (i : Nat) : Option (List Nat) :=
  (cs.get? i).bind Chunk.data

/-- Pushed data of the chunk at index `i`, defaulting to the empty list
(`chunks[i].data || []`). -/
def dataOrEmpty (cs : List Chunk) (i : Nat) : List Nat := (chunkData cs i).getD []

/-- Shape test for a compressed public key encoding: exactly 33 bytes with
leading byte 0x02 or 0x03. -/
def validCompressedPubKey (b : List Nat) : Bool :=
  b.length == 33 && (b.head? == some 2 || b.head? == some 3)

/-- Modelled from the spec: the owner-key codec of the external library call
`PublicKey.fromString`, which is not code of this repository. Spec section 4.1
requires a compressed key of exactly 33 bytes whose first byte is 0x02 or
0x03, rejected as `InvalidKeyEncoding` otherwise; a rejection surfaces as a
thrown exception that the parser catches. -/
def publicKeyFromBytes (b : List Nat) : Option (List Nat) :=
  if validCompressedPubKey b then some b else none

/-- Little-endian 32-bit read of the first four bytes. -/
def readUInt32LE (d : List Nat) : Nat := leBytesToNat (d.take 4)

/-- Models the timestamp read of the parser,
`new Uint32Array(Buffer.from(d).buffer)[0]`, for a present data array `d`.
`Buffer.from` allocates arrays shorter than 4096 bytes inside the shared
8 KiB buffer pool, and the `Uint32Array` view is built over the whole backing
ArrayBuffer, ignoring the byte offset, so the read returns the first 32-bit
word of the pool — the environment value `pool`, unrelated to `d`. An empty
(still truthy) array gets a fresh zero-length ArrayBuffer, the view has
length 0 and the read is the JavaScript value undefined. An array of 4096
bytes or more gets its own ArrayBuffer: the read then really returns the
first four data bytes when the length is a multiple of four, and the view
construction throws otherwise (the outer `none`, caught by the parser). -/
def uint32PoolRead (pool : Nat) (d : List Nat) : Option (Option Nat) :=
  if d.length = 0 then some none
  else if d.length < 4096 then some (some pool)
  else if d.length % 4 = 0 then some (some (readUInt32LE d))
  else none

/-- Success record of the parser, assembled from the chunk fields, the
accepted owner key and the timestamp read. -/
def parsedRecord (chunks : List Chunk) (pk : List Nat) (ts : Option Nat) :
    PushDropTokenData :=
  { protocolId := dataOrEmpty chunks 2
    investmentAmount := bufferToBigInt (dataOrEmpty chunks 3)
    investorPublicKey := pk
    timestamp := ts
    campaignId := chunkData chunks 6
    metadata := chunkData chunks 7 }

/-- Embeds `parsePushDropToken` (pushdrop-token.ts lines 190-238): guards for
chunk count, the OP_FALSE OP_RETURN prefix and the CROWDFUND protocol id, then
positional extraction of the remaining fields. A key rejected by the key codec
makes the surrounding try-catch return null, embedded as `none`. The
timestamp ternary takes the `Uint32Array`-over-pool read of `uint32PoolRead`
when chunk 5 carries data (so `pool` is the environment word that read
returns for pooled allocations, and a throwing view construction is the
caught null), and the literal 0 otherwise. A chunk-7 payload that is not
valid JSON would likewise return null through the catch handler; metadata is
kept as serialised bytes, so that path stays unmodelled and no theorem below
depends on it. -/
def parsePushDropToken (pool : Nat) (chunks : List Chunk) :
    Option PushDropTokenData :=
  if chunks.length < 5 then none
  else if chunkOp chunks 0 != some OP_FALSE then none
  else if chunkOp chunks 1 != some OP_RETURN then none
  else if dataOrEmpty chunks 2 != crowdfundId then none
  else
    match publicKeyFromBytes (dataOrEmpty chunks 4) with
    | none => none
    | some pk =>
      match chunkData chunks 5 with
      | none => some (parsedRecord chunks pk (some 0))
      | some d =>
        match uint32PoolRead pool d with
        | none => none
        | some ts => some (parsedRecord chunks pk ts)

/-- PushDrop shape of a chunk sequence, written from the spec description of
the data-carrying layout (sections 3 and 6, with the tolerances of sections
4.1 and 4.3: short amounts are zero-padded and trailing optional chunks may be
absent): at least five chunks, the OP_FALSE OP_RETURN prefix, the CROWDFUND
protocol id, and a valid compressed owner key in position 4. -/
def isPushDropShaped (cs : List Chunk) : Bool :=
  decide (5 ≤ cs.length) && chunkOp cs 0 == some OP_FALSE
    && chunkOp cs 1 == some OP_RETURN && dataOrEmpty cs 2 == crowdfundId
    && validCompressedPubKey (dataOrEmpty cs 4)

/-- Standard P2PKH locking script as a chunk sequence. -/
def p2pkhChunks (h : List Nat) : List Chunk :=
  [Chunk.mk OP_DUP none, Chunk.mk OP_HASH160 none, pushChunk h,
   Chunk.mk OP_EQUALVERIFY none, Chunk.mk opCHECKSIG none]

/-! ## Manual P2PK-style builder, from src/unnamed createInvestorToken -/

/-- Embeds the manual chunk construction of `createInvestorToken`: push the
encrypted data, drop it, push the receiver key bytes verbatim, require a
signature. The push opcodes are set to the raw lengths, exactly as the source
does, and no validation of the key bytes is performed anywhere in the
function. The encryption of the investment data is an external primitive, so
the ciphertext is a parameter. -/
def createInvestorTokenScript (encryptedData pubKeyBytes : List Nat) : List Chunk :=
  [Chunk.mk encryptedData.length (some encryptedData),
   Chunk.mk opDROP none,
   Chunk.mk pubKeyBytes.length (some pubKeyBytes),
   Chunk.mk opCHECKSIG none]

/-! ## ASM-text decoder, from src/src/findPushDropTokens.ts -/

/-- JavaScript `s.startsWith(p)`, computed on the character lists. -/
def strStarts (s p : String) : Bool := p.toList.isPrefixOf s.toList

/-- JavaScript `s.split(' ')` on a single-space separator: adjacent separators
produce empty tokens and the empty string splits to one empty token. -/
def splitSpacesAux : List Char → List Char → List String
  | [], cur => [String.mk cur.reverse]
  | c :: rest, cur =>
    if c = ' ' then String.mk cur.reverse :: splitSpacesAux rest []
    else splitSpacesAux rest (c :: cur)

/-- Split a string on single spaces, as `scriptAsm.split(' ')` does. -/
def splitOnSpace (s : String) : List String := splitSpacesAux s.toList []

/-- Result record of `decodePushDropScript`. -/
structure DecodedPushDrop where
  isValid : Bool
  publicKey : Option String
  dataFields : Option (List String)
deriving DecidableEq

/-- Token scan of `decodePushDropScript` (findPushDropTokens.ts lines 68-84):
walk the whitespace-split tokens, skipping drop opcodes, stopping at the first
OP_CHECKSIG (taking the immediately preceding token, whatever it is, as the
public key) and accumulating every token that does not start with OP_ as a
data field. `prev` carries the previous token, `acc` the fields so far. -/
def decodeLoop : List String → Option String → List String → Option String × List String
  | [], _, acc => (none, acc)
  | p :: rest, prev, acc =>
    if p == "OP_DROP" || p == "OP_2DROP" then decodeLoop rest (some p) acc
    else if p == "OP_CHECKSIG" then (prev, acc)
    else if !(strStarts p "OP_") then decodeLoop rest (some p) (acc ++ [p])
    else decodeLoop rest (some p) acc

/-- Assembles the result record: `isValid` is the truthiness of the extracted
key (undefined and the empty string are both falsy in JavaScript). -/
def decodeParts (parts : List String) : DecodedPushDrop :=
  let r := decodeLoop parts none []
  { isValid :=
      match r.fst with
      | some s => s != ""
      | none => false
    publicKey := r.fst
    dataFields := some r.snd }

/-- Embeds `decodePushDropScript` (findPushDropTokens.ts lines 55-94): split
the ASM text on single spaces and scan the tokens. Nothing in the body can
throw, so the catch branch is dead and the embedding is the plain function. -/
def decodePushDropScript (scriptAsm : String) : DecodedPushDrop :=
  decodeParts (splitOnSpace scriptAsm)

/-! ## Heuristic output classifiers -/

/-- Substring test on character lists (JavaScript `String.includes`). -/
def listIncludes : List Char → List Char → Bool
  | needle, [] => needle.isEmpty
  | needle, c :: rest => needle.isPrefixOf (c :: rest) || listIncludes needle rest

/-- JavaScript `hay.includes(needle)`. -/
def strIncludes (hay needle : String) : Bool := listIncludes needle.toList hay.toList

/-- Embeds the classifier of pages/api/tokens.ts line 70: an output looks like
a PushDrop token when its value is at most 100 satoshis or its script hex is
longer than 100 characters. No opcode test appears in this handler. -/
def tokensIsPushDrop (valueSats : Nat) (scriptHex : String) : Bool :=
  decide (valueSats ≤ 100) || decide (scriptHex.length > 100)

/-- Embeds the classifier of the my-tokens handler (lines 77-81 of the
unnamed route): drop opcode present, OP_CHECKSIG present, and either a value
of at most 100 satoshis or a nonstandard/unknown script type. -/
def myTokensIsPushDrop (scriptAsm : String) (satoshis : Nat) (scriptType : String) : Bool :=
  (strIncludes scriptAsm "OP_DROP" || strIncludes scriptAsm "OP_2DROP")
    && strIncludes scriptAsm "OP_CHECKSIG"
    && (decide (satoshis ≤ 100)
        || (scriptType == "nonstandard" || scriptType == "unknown"))

/-- Modelled from the spec: the classifier formula claimed in section 4.5,
`looksLikeToken = hasDropOpcode AND hasSignatureCheckOpcode AND
(value <= 100 OR scriptLength > 100)`, stated here only to be compared with
the two classifiers actually found in the source. -/
def specLooksLikeToken (scriptAsm : String) (satoshis scriptLength : Nat) : Bool :=
  (strIncludes scriptAsm "OP_DROP" || strIncludes scriptAsm "OP_2DROP")
    && strIncludes scriptAsm "OP_CHECKSIG"
    && (decide (satoshis ≤ 100) || decide (scriptLength > 100))

/-! ## Payment key identifier, frontend and backend -/

/-- Key id built by the frontend invest flow: the template literal joining the
derivation values with one space, passed to getPublicKey with forSelf false. -/
def frontendKeyID (dPre dSuf : String) : String := dPre ++ " " ++ dSuf

/-- Key id built by the backend invest handler: the template literal joining
the derivation values with one space, passed to getPublicKey with forSelf
true. -/
def backendKeyID (dPre dSuf : String) : String := dPre ++ " " ++ dSuf

/-! ## Investor ledger state machine -/

/-- Investor record. A freshly created record carries no redemption flag at
all (`none`); the redemption handler only treats the explicit value true as
redeemed. -/
structure Investor where
  identityKey : String
  amount : Int
  timestamp : Int
  redeemed : Option Bool
deriving DecidableEq

/-- Campaign state. -/
structure CrowdfundingState where
  goal : Int
  raised : Int
  investors : List Investor
  isComplete : Bool
  completionTxid : Option String
deriving DecidableEq

/-- In-place mutation of the record found by `Array.find`: only the first
record with the given identity key is rewritten. -/
def updateFirst (key : String) (f : Investor → Investor) : List Investor → List Investor
  | [] => []
  | inv :: rest =>
    if inv.identityKey == key then f inv :: rest else inv :: updateFirst key f rest

/-- Embeds the ledger update of the invest handler (lines 81-97): accumulate
into an existing record, refreshing its timestamp, or append a new record;
either way add the amount to the running total. -/
def recordInvestment (st : CrowdfundingState) (key : String) (amt now : Int) :
    CrowdfundingState :=
  let investors :=
    if st.investors.any (fun i => i.identityKey == key) then
      updateFirst key (fun i => { i with amount := i.amount + amt, timestamp := now })
        st.investors
    else
      st.investors ++ [⟨key, amt, now, none⟩]
  { st with investors := investors, raised := st.raised + amt }

/-- Embeds the invest handler around the ledger update: reject when the
campaign is complete or the first output carries no value; the wallet
internalisation is an external call assumed accepted on this path. -/
def investStep (st : CrowdfundingState) (key : String) (amt now : Int) :
    Except String CrowdfundingState :=
  if st.isComplete then Except.error "Crowdfunding already complete"
  else if amt == 0 then Except.error "Invalid transaction amount"
  else Except.ok (recordInvestment st key amt now)

/-- Embeds the per-investor redemption handler of pages/api/complete.ts
(second handler, lines 101-264): find the investor, reject when absent,
already redeemed, or the goal is not reached; otherwise build and broadcast
the token (external calls assumed to succeed on this path), set the redeemed
flag on that record, and close the campaign once every investor is redeemed. -/
def redeemStep (st : CrowdfundingState) (key txid : String) :
    Except String CrowdfundingState :=
  match st.investors.find? (fun i => i.identityKey == key) with
  | none => Except.error "Investor not found"
  | some inv =>
    if inv.redeemed == some true then Except.error "Investor already redeemed"
    else if st.raised < st.goal then
      Except.error "Goal not reached"
    else
      let investors := updateFirst key (fun i => { i with redeemed := some true })
        st.investors
      if investors.all (fun i => i.redeemed == some true) then
        Except.ok { st with investors := investors, isComplete := true,
                            completionTxid := some txid }
      else
        Except.ok { st with investors := investors }

/-! ## Codec lemmas -/

theorem natToLEBytes_length (w n : Nat) : (natToLEBytes w n).length = w := by
  induction w generalizing n with
  | zero => rfl
  | succ w ih => simp [natToLEBytes, ih]

theorem leBytesToNat_natToLEBytes (w n : Nat) :
    leBytesToNat (natToLEBytes w n) = n % 2 ^ (8 * w) := by
  induction w generalizing n with
  | zero => simp [natToLEBytes, leBytesToNat, Nat.mod_one]
  | succ w ih =>
    have hpow : (2 : Nat) ^ (8 * (w + 1)) = 256 * 2 ^ (8 * w) := by
      rw [Nat.mul_succ, pow_add]; ring
    rw [natToLEBytes, leBytesToNat, ih, hpow, Nat.mod_mul]

theorem bufferToBigInt_bigIntToBuffer (v : Int)
    (h1 : -(2 ^ 63) ≤ v) (h2 : v < 2 ^ 63) :
    bufferToBigInt (bigIntToBuffer v) = v := by
  set u : Nat := (v % (2 ^ 64 : Int)).toNat with hu
  have hlen : (natToLEBytes 8 u).length = 8 := natToLEBytes_length 8 u
  have hne : (natToLEBytes 8 u).isEmpty = false := by
    cases h : natToLEBytes 8 u with
    | nil => rw [h] at hlen; simp at hlen
    | cons a l => simp
  have hval : leBytesToNat (natToLEBytes 8 u) = u % 2 ^ 64 := by
    have := leBytesToNat_natToLEBytes 8 u
    norm_num at this
    exact this
  rw [bigIntToBuffer, bufferToBigInt, hne, ← hu]
  simp only [Bool.false_eq_true, if_false, hlen, List.take_of_length_le (le_of_eq hlen),
    Nat.sub_self, List.replicate, List.append_nil, hval]
  have hu64 : u % 2 ^ 64 = u := by omega
  rw [hu64]
  split <;> omega

/-! ## C6 -/

/-- C6, corrected. The amount decoder zero-pads inputs shorter than 8 bytes
on the right and decodes signed 64-bit little-endian (so it inverts the
encoder on the whole signed 64-bit range), and on inputs longer than 8 bytes
it silently decodes the first 8 bytes: decoding a buffer, its explicit
zero-padding, and its 8-byte truncation all agree. -/
theorem decodeAmount_pad_truncate :
    (∀ v : Int, -(2 ^ 63) ≤ v → v < 2 ^ 63 →
      bufferToBigInt (bigIntToBuffer v) = v) ∧
    (∀ b : List Nat, b.length ≤ 8 →
      bufferToBigInt (b ++ List.replicate (8 - b.length) 0) = bufferToBigInt b) ∧
    (∀ b : List Nat, 8 ≤ b.length → bufferToBigInt (b.take 8) = bufferToBigInt b) := by
  refine ⟨bufferToBigInt_bigIntToBuffer, ?_, ?_⟩
  · intro b hb
    cases b with
    | nil => decide
    | cons a l =>
      have hlen : (a :: l).length ≤ 8 := hb
      rw [bufferToBigInt, bufferToBigInt]
      have h1 : ((a :: l) ++ List.replicate (8 - (a :: l).length) 0).isEmpty = false := by simp
      have h2 : (a :: l).isEmpty = false := by simp
      rw [h1, h2]
      simp only [Bool.false_eq_true, if_false]
      have htake : ((a :: l) ++ List.replicate (8 - (a :: l).length) 0).take 8 =
          (a :: l) ++ List.replicate (8 - (a :: l).length) 0 := by
        refine List.take_of_length_le ?_
        simp only [List.length_append, List.length_replicate]
        omega
      have hlen2 : ((a :: l) ++ List.replicate (8 - (a :: l).length) 0).length = 8 := by
        simp only [List.length_append, List.length_replicate]
        omega
      rw [htake, hlen2, Nat.sub_self]
      have htake2 : (a :: l).take 8 = (a :: l) := List.take_of_length_le hlen
      rw [htake2]
      simp
  · intro b hb
    have hne : b ≠ [] := by intro h; rw [h] at hb; simp at hb
    have hne8 : b.take 8 ≠ [] := by
      intro h
      have := congrArg List.length h
      simp only [List.length_take, List.length_nil] at this
      omega
    rw [bufferToBigInt, bufferToBigInt]
    have h1 : (b.take 8).isEmpty = false := by simpa [List.isEmpty_iff] using hne8
    have h2 : b.isEmpty = false := by simpa [List.isEmpty_iff] using hne
    rw [h1, h2]
    simp only [Bool.false_eq_true, if_false]
    have hlen : (b.take 8).length = 8 := by simp only [List.length_take]; omega
    have ht : (b.take 8).take 8 = b.take 8 := List.take_of_length_le (le_of_eq hlen)
    rw [ht, hlen, Nat.sub_self]
    have hz : 8 - b.length = 0 := by omega
    rw [hz]

/-- Witness for C6 at concrete inputs. -/
theorem decodeAmount_pad_truncate_witness :
    bufferToBigInt (bigIntToBuffer (-5)) = -5 ∧
    bufferToBigInt ([7] ++ List.replicate (8 - List.length [7]) 0) = bufferToBigInt [7] ∧
    bufferToBigInt ((List.replicate 9 1).take 8) = bufferToBigInt (List.replicate 9 1) :=
  ⟨decodeAmount_pad_truncate.1 (-5) (by decide) (by decide),
   decodeAmount_pad_truncate.2.1 [7] (by decide),
   decodeAmount_pad_truncate.2.2 (List.replicate 9 1) (by decide)⟩

/-- C6, counterexample to the claim as stated: a 9-byte input does not fail;
the decoder returns the integer decoded from its first 8 bytes. -/
theorem decodeAmount_long_input_decodes :
    bufferToBigInt [2, 0, 0, 0, 0, 0, 0, 0, 99] = 2 ∧
    bufferToBigInt [2, 0, 0, 0, 0, 0, 0, 0, 99] =
      bufferToBigInt [2, 0, 0, 0, 0, 0, 0, 0] := by decide

/-! ## C4 -/

/-- C4, confirmed. The payer-side and payee-side key identifiers are the same
string for every pair of derivation values, namely the two values joined by
exactly one space. -/
theorem paymentKeyId_agreement (a b : String) :
    frontendKeyID a b = backendKeyID a b ∧ frontendKeyID a b = a ++ " " ++ b :=
  ⟨rfl, rfl⟩

/-! ## C7 -/

/-- C7, counterexample to the claim as stated: on the ASM text consisting of
only the two opcodes, the decoder does not report the not-a-PushDrop result;
it reports validity. -/
theorem decodeAsm_drop_checksig_not_rejected :
    ¬ ((decodePushDropScript "OP_DROP OP_CHECKSIG").isValid = false) := by decide

/-- C7, corrected. On the ASM text OP_DROP OP_CHECKSIG the decoder does not
crash, but it returns a success record whose owner key is the literal token
OP_DROP (the token immediately preceding OP_CHECKSIG, with no check that it
is a data push) and an empty data-field list. -/
theorem decodeAsm_drop_checksig_result :
    decodePushDropScript "OP_DROP OP_CHECKSIG" =
      ⟨true, some "OP_DROP", some []⟩ := by decide

/-! ## C3 -/

/-- C3, counterexample to the claim as stated: neither handler computes the
claimed conjunction. The tokens handler classifies a 50-satoshi standard
payment output with no drop opcode as a token (it tests no opcodes at all),
and the my-tokens handler classifies a 101-satoshi nonstandard output with a
27-character script as a token while the claimed formula classifies both as
false. -/
theorem classifier_formula_cex :
    (tokensIsPushDrop 50 "76a914ab88ac" = true ∧
      specLooksLikeToken "OP_DUP OP_HASH160 ab88 OP_EQUALVERIFY OP_CHECKSIG" 50 12 = false) ∧
    (myTokensIsPushDrop "aa OP_DROP 02ab OP_CHECKSIG" 101 "nonstandard" = true ∧
      specLooksLikeToken "aa OP_DROP 02ab OP_CHECKSIG" 101 27 = false) := by decide

/-- C3, corrected. The tokens handler computes value at most 100 OR script
hex longer than 100 with no opcode tests; the my-tokens handler computes
drop AND checksig AND (value at most 100 OR nonstandard type). On the claimed
boundary instances the two handlers agree with the claim: 100 satoshis with
drop and checksig opcodes classifies true under both, and 101 satoshis with a
short standard-typed script classifies false under both. -/
theorem classifier_boundary (asm hex ty : String)
    (hdrop : strIncludes asm "OP_DROP" = true)
    (hcs : strIncludes asm "OP_CHECKSIG" = true)
    (hshort : hex.length ≤ 100)
    (hty1 : ty ≠ "nonstandard") (hty2 : ty ≠ "unknown") :
    tokensIsPushDrop 100 hex = true ∧ myTokensIsPushDrop asm 100 ty = true ∧
    tokensIsPushDrop 101 hex = false ∧ myTokensIsPushDrop asm 101 ty = false := by
  have hhex : decide (hex.length > 100) = false := decide_eq_false_iff_not.mpr (by omega)
  have ht1 : (ty == "nonstandard") = false := beq_eq_false_iff_ne.mpr hty1
  have ht2 : (ty == "unknown") = false := beq_eq_false_iff_ne.mpr hty2
  refine ⟨?_, ?_, ?_, ?_⟩
  · simp [tokensIsPushDrop]
  · simp [myTokensIsPushDrop, hdrop, hcs]
  · simp [tokensIsPushDrop, hhex]
  · simp [myTokensIsPushDrop, hdrop, hcs, ht1, ht2]

/-- Witness for C3 at concrete inputs. -/
theorem classifier_boundary_witness :
    tokensIsPushDrop 100 "76a9" = true ∧
    myTokensIsPushDrop "OP_DROP OP_CHECKSIG" 100 "pubkeyhash" = true ∧
    tokensIsPushDrop 101 "76a9" = false ∧
    myTokensIsPushDrop "OP_DROP OP_CHECKSIG" 101 "pubkeyhash" = false :=
  classifier_boundary "OP_DROP OP_CHECKSIG" "76a9" "pubkeyhash"
    (by decide) (by decide) (by decide) (by decide) (by decide)

/-! ## C5 -/

/-- C5, counterexample to the claim as stated: called with a 32-byte owner
key, the manual builder returns a complete four-chunk locking script with the
key embedded verbatim, not an InvalidKeyEncoding failure. -/
theorem createInvestorToken_accepts_bad_key :
    createInvestorTokenScript [1] (List.replicate 32 2) =
      [Chunk.mk 1 (some [1]), Chunk.mk opDROP none,
       Chunk.mk 32 (some (List.replicate 32 2)), Chunk.mk opCHECKSIG none] := rfl

/-- C5, corrected. The script builders perform no owner-key validation: for
any key bytes of length 32 or 34, or of length 33 with leading byte 0x04, the
manual builder still produces the full four-chunk script with those bytes as
the key push. The 33-byte and leading-byte rule lives only in the key codec
of the external wallet library (used when a key string is parsed, upstream of
the builder), which rejects exactly such encodings. -/
theorem builder_embeds_key_unvalidated (enc pk : List Nat)
    (hbad : pk.length = 32 ∨ pk.length = 34 ∨ (pk.length = 33 ∧ pk.head? = some 4)) :
    chunkData (createInvestorTokenScript enc pk) 2 = some pk ∧
    (createInvestorTokenScript enc pk).length = 4 ∧
    publicKeyFromBytes pk = none := by
  refine ⟨rfl, rfl, ?_⟩
  rw [publicKeyFromBytes]
  have hval : validCompressedPubKey pk = false := by
    rw [validCompressedPubKey]
    rcases hbad with h | h | ⟨h33, h4⟩
    · have : (pk.length == 33) = false := by simp [h]
      simp [this]
    · have : (pk.length == 33) = false := by simp [h]
      simp [this]
    · have h2 : (pk.head? == some 2) = false := by simp [h4]
      have h3 : (pk.head? == some 3) = false := by simp [h4]
      simp [h2, h3]
  rw [hval]
  simp

/-- Witness for C5 at a concrete 34-byte key. -/
theorem builder_embeds_key_unvalidated_witness :
    chunkData (createInvestorTokenScript [5] (List.replicate 34 3)) 2 =
      some (List.replicate 34 3) ∧
    (createInvestorTokenScript [5] (List.replicate 34 3)).length = 4 ∧
    publicKeyFromBytes (List.replicate 34 3) = none :=
  builder_embeds_key_unvalidated [5] (List.replicate 34 3) (by decide)

/-! ## Parser case lemmas -/

theorem publicKeyFromBytes_some_valid (b pk : List Nat)
    (h : publicKeyFromBytes b = some pk) : validCompressedPubKey b = true := by
  rw [publicKeyFromBytes] at h
  cases hv : validCompressedPubKey b
  · rw [hv] at h; simp at h
  · rfl

theorem parse_some_protocol (pool : Nat) (cs : List Chunk) (t : PushDropTokenData)
    (h : parsePushDropToken pool cs = some t) : t.protocolId = crowdfundId := by
  rw [parsePushDropToken] at h
  split_ifs at h with h1 h2 h3 h4
  have h4e : dataOrEmpty cs 2 = crowdfundId := by
    cases hb : (dataOrEmpty cs 2 == crowdfundId)
    · exact absurd (by simp [bne, hb]) h4
    · exact eq_of_beq hb
  split at h
  · exact absurd h (by simp)
  · split at h
    · cases h
      exact h4e
    · split at h
      · exact absurd h (by simp)
      · cases h
        exact h4e

theorem parse_eq_none_of_not_shaped (pool : Nat) (cs : List Chunk)
    (hs : isPushDropShaped cs = false) : parsePushDropToken pool cs = none := by
  cases h : parsePushDropToken pool cs with
  | none => rfl
  | some t =>
    exfalso
    rw [parsePushDropToken] at h
    split_ifs at h with h1 h2 h3 h4
    cases hpk : publicKeyFromBytes (dataOrEmpty cs 4) <;> rw [hpk] at h
    · simp at h
    · have hv := publicKeyFromBytes_some_valid _ _ hpk
      have e1 : decide (5 ≤ cs.length) = true := decide_eq_true (by omega)
      have e2 : (chunkOp cs 0 == some OP_FALSE) = true := by
        cases hb : (chunkOp cs 0 == some OP_FALSE)
        · exact absurd (by simp [bne, hb]) h2
        · rfl
      have e3 : (chunkOp cs 1 == some OP_RETURN) = true := by
        cases hb : (chunkOp cs 1 == some OP_RETURN)
        · exact absurd (by simp [bne, hb]) h3
        · rfl
      have e4 : (dataOrEmpty cs 2 == crowdfundId) = true := by
        cases hb : (dataOrEmpty cs 2 == crowdfundId)
        · exact absurd (by simp [bne, hb]) h4
        · rfl
      rw [isPushDropShaped, e1, e2, e3, e4, hv] at hs
      simp at hs

theorem parse_p2pkh_none (pool : Nat) (h : List Nat) :
    parsePushDropToken pool (p2pkhChunks h) = none := by
  have hlen : (p2pkhChunks h).length = 5 := rfl
  have hop : chunkOp (p2pkhChunks h) 0 = some OP_DUP := rfl
  rw [parsePushDropToken, hlen, if_neg (by omega), if_pos]
  rw [hop]
  decide

/-! ## C2 -/

/-- C2, confirmed. Any chunk sequence that is not PushDrop shaped, where the
shape (from the spec, with its stated tolerances) demands at least five
chunks, the OP_FALSE OP_RETURN prefix, the CROWDFUND protocol id and a valid
compressed owner key at position 4, parses to the failure value null; in
particular every standard P2PKH script parses to null. Partially populated
success records are impossible: a success implies the full shape. -/
theorem parse_rejects_non_pushdrop (pool : Nat) (cs : List Chunk) (h20 : List Nat)
    (hs : isPushDropShaped cs = false) :
    parsePushDropToken pool cs = none ∧
    parsePushDropToken pool (p2pkhChunks h20) = none :=
  ⟨parse_eq_none_of_not_shaped pool cs hs, parse_p2pkh_none pool h20⟩

/-- Witness for C2: the empty script and a concrete P2PKH script. -/
theorem parse_rejects_non_pushdrop_witness :
    parsePushDropToken 0 [] = none ∧
    parsePushDropToken 0 (p2pkhChunks (List.replicate 20 1)) = none :=
  parse_rejects_non_pushdrop 0 [] (List.replicate 20 1) (by decide)

/-! ## C8 -/

/-- C8, confirmed. Both embedded parsers are total and return only tagged
values: the chunk parser returns null or a record that passed the protocol
guard (its protocol id is the CROWDFUND constant), and the ASM decoder
reports validity exactly when it extracted a truthy public key, so a failure
is always the tagged record, never a crash. -/
theorem parsers_total_tagged : ∀ (pool : Nat) (cs : List Chunk) (s : String),
    (parsePushDropToken pool cs = none ∨
      ∃ t, parsePushDropToken pool cs = some t ∧ t.protocolId = crowdfundId) ∧
    ((decodePushDropScript s).isValid = true ↔
      ∃ k, (decodePushDropScript s).publicKey = some k ∧ k ≠ "") := by
  intro pool cs s
  constructor
  · cases h : parsePushDropToken pool cs with
    | none => exact Or.inl rfl
    | some t => exact Or.inr ⟨t, rfl, parse_some_protocol pool cs t h⟩
  · rw [decodePushDropScript, decodeParts]
    cases hf : (decodeLoop (splitOnSpace s) none []).fst with
    | none => simp [hf]
    | some k0 =>
      simp only [hf]
      constructor
      · intro hv
        refine ⟨k0, rfl, ?_⟩
        have : (k0 != "") = true := hv
        exact bne_iff_ne.mp this
      · rintro ⟨k, hk, hne⟩
        have hkk : k = k0 := by
          have : (some k0 : Option String) = some k := hk
          cases this; rfl
        subst hkk
        exact bne_iff_ne.mpr hne

/-! ## C1 -/

theorem parse_create_literal (pool : Nat) (b3 b4 b5 : List Nat) (tail : List Chunk)
    (hk : validCompressedPubKey b4 = true)
    (h5a : b5.length ≠ 0) (h5b : b5.length < 4096) :
    parsePushDropToken pool (Chunk.mk OP_FALSE none :: Chunk.mk OP_RETURN none ::
      pushChunk crowdfundId :: pushChunk b3 :: pushChunk b4 :: pushChunk b5 :: tail) =
      some ⟨crowdfundId, bufferToBigInt b3, b4, some pool,
        (tail.get? 0).bind Chunk.data, (tail.get? 1).bind Chunk.data⟩ := by
  rw [parsePushDropToken]
  rw [if_neg (by simp [List.length_cons])]
  rw [if_neg (by simp [chunkOp, pushChunk])]
  rw [if_neg (by simp [chunkOp, pushChunk])]
  rw [if_neg (by simp [dataOrEmpty, chunkData, pushChunk])]
  have h4 : dataOrEmpty (Chunk.mk OP_FALSE none :: Chunk.mk OP_RETURN none ::
      pushChunk crowdfundId :: pushChunk b3 :: pushChunk b4 :: pushChunk b5 :: tail) 4 = b4 := by
    simp [dataOrEmpty, chunkData, pushChunk]
  rw [h4, publicKeyFromBytes, if_pos hk]
  simp [dataOrEmpty, chunkData, pushChunk, uint32PoolRead, h5a, h5b, parsedRecord]

/-- C1, corrected. Parsing the built locking script recovers the protocol id,
amount, owner key, campaign id and metadata of every valid payload whose
optional fields respect the positional layout (campaign id nonempty when
present, metadata only alongside a campaign id) — but not the timestamp: the
parser reads the timestamp through a `Uint32Array` view over the backing
ArrayBuffer of a freshly allocated small Buffer, which is the shared
allocator pool with the byte offset ignored, so the parsed timestamp is the
first 32-bit word of the pool, an environment value independent of the
encoded timestamp. Field-for-field equality thus holds for all fields except
the timestamp, which comes back as the pool word. -/
theorem pushdrop_roundtrip (pool : Nat) (data : PushDropTokenData)
    (hp : data.protocolId = crowdfundId)
    (h1 : -(2 ^ 63) ≤ data.investmentAmount) (h2 : data.investmentAmount < 2 ^ 63)
    (hk : validCompressedPubKey data.investorPublicKey = true)
    (hc : data.campaignId ≠ some [])
    (hm : data.metadata = none ∨ data.campaignId.isSome = true) :
    parsePushDropToken pool (createPushDropTokenScript data) =
      some { data with timestamp := some pool } := by
  rcases data with ⟨pid, amt, pk, ts, cid, md⟩
  simp only at hp hk hc hm h1 h2
  subst hp
  have hamt := bufferToBigInt_bigIntToBuffer amt h1 h2
  have h5a : (natToLEBytes 4 (ts.getD 0 % 2 ^ 32)).length ≠ 0 := by
    rw [natToLEBytes_length]; omega
  have h5b : (natToLEBytes 4 (ts.getD 0 % 2 ^ 32)).length < 4096 := by
    rw [natToLEBytes_length]; omega
  rcases cid with _ | c
  · rcases md with _ | m
    · rw [createPushDropTokenScript]
      simp only [List.append_nil]
      rw [parse_create_literal pool _ pk _ [] hk h5a h5b]
      simp [hamt]
    · exfalso
      rcases hm with hm1 | hm2
      · simp at hm1
      · simp at hm2
  · have hce : c.isEmpty = false := by
      cases c with
      | nil => exact absurd rfl hc
      | cons a l => rfl
    rcases md with _ | m
    · rw [createPushDropTokenScript]
      simp only [hce, Bool.false_eq_true, if_false, List.append_nil, List.cons_append,
        List.nil_append, List.singleton_append]
      rw [parse_create_literal pool _ pk _ [pushChunk c] hk h5a h5b]
      simp [hamt, pushChunk]
    · rw [createPushDropTokenScript]
      simp only [hce, Bool.false_eq_true, if_false, List.append_nil, List.cons_append,
        List.nil_append, List.singleton_append]
      rw [parse_create_literal pool _ pk _ [pushChunk c, pushChunk m] hk h5a h5b]
      simp [hamt, pushChunk]

/-- Witness for C1 at a concrete payload with both optional fields and a
concrete pool word: every field survives except the timestamp, which is the
pool word. -/
theorem pushdrop_roundtrip_witness :
    parsePushDropToken 4242 (createPushDropTokenScript
      ⟨crowdfundId, -3, 3 :: List.replicate 32 1, some 7, some [99, 100],
        some [123, 34, 97, 34, 58, 34, 98, 34, 125]⟩) =
      some ⟨crowdfundId, -3, 3 :: List.replicate 32 1, some 4242, some [99, 100],
        some [123, 34, 97, 34, 58, 34, 98, 34, 125]⟩ :=
  pushdrop_roundtrip 4242
    ⟨crowdfundId, -3, 3 :: List.replicate 32 1, some 7, some [99, 100],
      some [123, 34, 97, 34, 58, 34, 98, 34, 125]⟩
    rfl (by decide) (by decide) (by decide) (by decide) (by decide)

/-- C1, counterexample to the claim as stated, at two concrete inputs: a
well-formed payload does not round-trip when the pool word differs from its
timestamp (here pool word 0 against encoded timestamp 7), and even with the
pool word equal to the timestamp a payload carrying metadata but no campaign
id does not round-trip, the metadata chunk coming back as the campaign id. -/
theorem pushdrop_not_field_for_field :
    (parsePushDropToken 0 (createPushDropTokenScript
      ⟨crowdfundId, 5, 2 :: List.replicate 32 7, some 7, some [99], none⟩) ≠
      some ⟨crowdfundId, 5, 2 :: List.replicate 32 7, some 7, some [99], none⟩) ∧
    (parsePushDropToken 7 (createPushDropTokenScript
      ⟨crowdfundId, 5, 2 :: List.replicate 32 7, some 7, none, some [123, 125]⟩) ≠
      some ⟨crowdfundId, 5, 2 :: List.replicate 32 7, some 7, none, some [123, 125]⟩) := by
  decide

/-! ## C10 -/

theorem decodeLoop_through (d : String) (rest : List String)
    (hd : strStarts d "OP_" = false) :
    ∀ (ps : List String) (prev : Option String) (acc : List String),
      "OP_CHECKSIG" ∉ ps →
      ∃ acc2, decodeLoop (ps ++ d :: "OP_CHECKSIG" :: rest) prev acc =
        (some d, acc2 ++ [d]) := by
  have hd1 : (d == "OP_DROP") = false := beq_eq_false_iff_ne.mpr
    (by intro h; subst h; exact absurd hd (by decide))
  have hd2 : (d == "OP_2DROP") = false := beq_eq_false_iff_ne.mpr
    (by intro h; subst h; exact absurd hd (by decide))
  have hd3 : (d == "OP_CHECKSIG") = false := beq_eq_false_iff_ne.mpr
    (by intro h; subst h; exact absurd hd (by decide))
  intro ps
  induction ps with
  | nil =>
    intro prev acc _
    refine ⟨acc, ?_⟩
    simp [decodeLoop, hd1, hd2, hd3, hd]
  | cons p ps ih =>
    intro prev acc hn
    have hp : (p == "OP_CHECKSIG") = false := beq_eq_false_iff_ne.mpr
      (by intro h; subst h; exact hn (by simp))
    have hn2 : "OP_CHECKSIG" ∉ ps := fun h => hn (by simp [h])
    rw [List.cons_append]
    by_cases hdrop : (p == "OP_DROP" || p == "OP_2DROP") = true
    · rw [decodeLoop, if_pos hdrop]
      exact ih (some p) acc hn2
    · rw [decodeLoop, if_neg hdrop, if_neg (by simp [hp])]
      cases hst : strStarts p "OP_" with
      | true =>
        rw [if_neg (by simp [hst])]
        exact ih (some p) acc hn2
      | false =>
        rw [if_pos (by simp [hst])]
        exact ih (some p) (acc ++ [p]) hn2

/-- C10, confirmed (reading the claim at the first signature-check token,
which is where the scan stops): whenever a token that does not start with
OP_ immediately precedes the first OP_CHECKSIG of the token list, the decoder
returns that token as the owner public key and also appends it as the last
element of the accumulated data fields; the ASM entry point is exactly this
decoder applied to the space-split script text. -/
theorem asm_owner_key_in_dataFields (ps rest : List String) (d : String)
    (hd : strStarts d "OP_" = false) (hn : "OP_CHECKSIG" ∉ ps) :
    (decodeParts (ps ++ d :: "OP_CHECKSIG" :: rest)).publicKey = some d ∧
    (∃ fs, (decodeParts (ps ++ d :: "OP_CHECKSIG" :: rest)).dataFields = some fs ∧
      fs.getLast? = some d) ∧
    (∀ s : String, decodePushDropScript s = decodeParts (splitOnSpace s)) := by
  obtain ⟨acc2, h⟩ := decodeLoop_through d rest hd ps none [] hn
  refine ⟨?_, ⟨acc2 ++ [d], ?_, List.getLast?_concat _⟩, fun s => rfl⟩
  · simp [decodeParts, h]
  · simp [decodeParts, h]

/-- Witness for C10 on a concrete PushDrop-style ASM token list. -/
theorem asm_owner_key_in_dataFields_witness :
    (decodeParts (["aa", "OP_DROP"] ++ "02ab" :: "OP_CHECKSIG" :: [])).publicKey =
      some "02ab" ∧
    (∃ fs, (decodeParts (["aa", "OP_DROP"] ++ "02ab" :: "OP_CHECKSIG" :: [])).dataFields =
      some fs ∧ fs.getLast? = some "02ab") ∧
    (∀ s : String, decodePushDropScript s = decodeParts (splitOnSpace s)) :=
  asm_owner_key_in_dataFields ["aa", "OP_DROP"] [] "02ab" (by decide) (by decide)

/-! ## C9 -/

theorem updateFirst_split (pre : List Investor) (inv : Investor) (post : List Investor)
    (key : String) (f : Investor → Investor)
    (hpre : ∀ j ∈ pre, j.identityKey ≠ key) (hinv : inv.identityKey = key) :
    updateFirst key f (pre ++ inv :: post) = pre ++ f inv :: post := by
  induction pre with
  | nil => simp [updateFirst, hinv]
  | cons j pre ih =>
    have hj : (j.identityKey == key) = false :=
      beq_eq_false_iff_ne.mpr (hpre j (by simp))
    simp only [List.cons_append, updateFirst, hj, Bool.false_eq_true, if_false,
      List.cons.injEq, true_and]
    exact ih (fun x hx => hpre x (by simp [hx]))

theorem any_split (pre : List Investor) (inv : Investor) (post : List Investor)
    (key : String) (hinv : inv.identityKey = key) :
    (pre ++ inv :: post).any (fun i => i.identityKey == key) = true :=
  List.any_eq_true.mpr ⟨inv, by simp, by simp [hinv]⟩

theorem find?_updateFirst (key : String) (f : Investor → Investor)
    (hf : ∀ i, (f i).identityKey = i.identityKey) :
    ∀ (l : List Investor) (inv : Investor),
      l.find? (fun i => i.identityKey == key) = some inv →
      (updateFirst key f l).find? (fun i => i.identityKey == key) = some (f inv) := by
  intro l
  induction l with
  | nil => intro inv h; simp [List.find?] at h
  | cons j l ih =>
    intro inv h
    by_cases hj : (j.identityKey == key) = true
    · rw [List.find?_cons_of_pos (p := fun (i : Investor) => i.identityKey == key) _ hj] at h
      cases h
      simp only [updateFirst, hj, if_true]
      have hfj : ((f j).identityKey == key) = true := by rw [hf j]; exact hj
      rw [List.find?_cons_of_pos (p := fun (i : Investor) => i.identityKey == key) _ hfj]
    · rw [List.find?_cons_of_neg (p := fun (i : Investor) => i.identityKey == key) _ hj] at h
      simp only [updateFirst, hj, Bool.false_eq_true, if_false]
      rw [List.find?_cons_of_neg (p := fun (i : Investor) => i.identityKey == key) _ hj]
      exact ih inv h

theorem redeemStep_ok_inv (st st1 : CrowdfundingState) (key txid : String)
    (h : redeemStep st key txid = Except.ok st1) :
    st1.investors = updateFirst key (fun i => { i with redeemed := some true })
      st.investors := by
  simp only [redeemStep] at h
  split at h
  · exact absurd h (by simp)
  · rename_i inv0 hf
    by_cases hr : (inv0.redeemed == some true) = true
    · rw [if_pos hr] at h; exact absurd h (by simp)
    · rw [if_neg hr] at h
      by_cases hg : st.raised < st.goal
      · rw [if_pos hg] at h; exact absurd h (by simp)
      · rw [if_neg hg] at h
        by_cases hall : ((updateFirst key (fun i => { i with redeemed := some true })
            st.investors).all fun i => i.redeemed == some true) = true
        · rw [if_pos hall] at h; cases h; rfl
        · rw [if_neg hall] at h; cases h; rfl

/-- C9, confirmed. Across the
ledger steps embedded from the handlers: an accepted payment from an identity
key already in the list rewrites only the first record with that key, adding
the amount and refreshing the timestamp, without changing the record count; a
payment from an unseen key appends exactly one new record with no redemption
flag; a successful redemption flips the flag of that investor to true and a
second redemption attempt for the same key is rejected with the
already-redeemed error, as is any attempt on a record whose flag is already
true. -/
theorem investor_lifecycle (st : CrowdfundingState) (key txid : String)
    (amt now : Int) (hc : st.isComplete = false) (ha : amt ≠ 0) :
    (st.investors.any (fun i => i.identityKey == key) = false →
      investStep st key amt now =
        Except.ok { st with investors := st.investors ++ [⟨key, amt, now, none⟩],
                            raised := st.raised + amt }) ∧
    (∀ pre inv post, st.investors = pre ++ inv :: post →
      (∀ j ∈ pre, j.identityKey ≠ key) → inv.identityKey = key →
      investStep st key amt now =
        Except.ok { st with
          investors := pre ++
            { inv with amount := inv.amount + amt, timestamp := now } :: post,
          raised := st.raised + amt }) ∧
    (∀ st1, redeemStep st key txid = Except.ok st1 →
      ∀ txid2, redeemStep st1 key txid2 = Except.error "Investor already redeemed") ∧
    (∀ inv, st.investors.find? (fun i => i.identityKey == key) = some inv →
      inv.redeemed = some true →
      redeemStep st key txid = Except.error "Investor already redeemed") := by
  have hcb : ¬ (st.isComplete = true) := by simp [hc]
  have hab : ¬ ((amt == 0) = true) := by simp [beq_eq_false_iff_ne.mpr ha]
  refine ⟨?_, ?_, ?_, ?_⟩
  · intro hfresh
    rw [investStep, if_neg hcb, if_neg hab]
    simp only [recordInvestment, hfresh, Bool.false_eq_true, if_false]
  · intro pre inv post hsplit hpre hinv
    rw [investStep, if_neg hcb, if_neg hab]
    have hany := any_split pre inv post key hinv
    simp only [recordInvestment, hsplit, hany, if_true]
    rw [updateFirst_split pre inv post key _ hpre hinv]
  · intro st1 h txid2
    have hinv' := redeemStep_ok_inv st st1 key txid h
    have hfound : ∃ inv, st.investors.find? (fun i => i.identityKey == key) = some inv := by
      simp only [redeemStep] at h
      cases hf : st.investors.find? (fun i => i.identityKey == key) <;> rw [hf] at h
      · simp at h
      · exact ⟨_, rfl⟩
    obtain ⟨inv, hf⟩ := hfound
    have hf1 := find?_updateFirst key (fun i => { i with redeemed := some true })
      (fun i => rfl) st.investors inv hf
    rw [← hinv'] at hf1
    simp only [redeemStep, hf1]
    simp
  · intro inv hf hred
    simp only [redeemStep, hf]
    rw [if_pos (by simp [hred])]

/-- Campaign state used by the C9 witness: one investor, goal reached. -/
def wState : CrowdfundingState :=
  ⟨100, 100, [⟨"k", 100, 1, none⟩], false, none⟩

/-- Redeemed campaign state reached from `wState` by one redemption. -/
def wStateR : CrowdfundingState :=
  ⟨100, 100, [⟨"k", 100, 1, some true⟩], true, some "t"⟩

/-- Campaign state whose only investor already carries the redeemed flag. -/
def wState2 : CrowdfundingState :=
  ⟨100, 100, [⟨"k", 100, 1, some true⟩], false, none⟩

/-- Witness for C9: a fresh investment, a repeat investment, a rejected
second redemption after a successful one, and a rejected redemption of an
already-redeemed record, all at concrete inputs. -/
theorem investor_lifecycle_witness :
    investStep wState "k2" 5 2 =
      Except.ok { wState with investors := wState.investors ++ [⟨"k2", 5, 2, none⟩],
                              raised := wState.raised + 5 } ∧
    investStep wState "k" 5 2 =
      Except.ok { wState with
        investors := [] ++ ⟨"k", 100 + 5, 2, none⟩ :: [],
        raised := wState.raised + 5 } ∧
    redeemStep wStateR "k" "t2" = Except.error "Investor already redeemed" ∧
    redeemStep wState2 "k" "t" = Except.error "Investor already redeemed" :=
  ⟨(investor_lifecycle wState "k2" "t" 5 2 rfl (by decide)).1 (by decide),
   (investor_lifecycle wState "k" "t" 5 2 rfl (by decide)).2.1
     [] ⟨"k", 100, 1, none⟩ [] rfl (by simp) rfl,
   (investor_lifecycle wState "k" "t" 5 2 rfl (by decide)).2.2.1 wStateR rfl "t2",
   (investor_lifecycle wState2 "k" "t" 5 2 rfl (by decide)).2.2.2
     ⟨"k", 100, 1, some true⟩ rfl rfl⟩

end Crowdfund
